import Mathlib

/-!
Verification development for the Legal-Tabular extraction core.

Shallow embedding of `src/backend/src/services/field_extractor.py` and the
comparison/evaluation logic of `src/backend/src/services/service_orchestrator.py`.

Modelling conventions:
* Python strings are Lean `String` (one `Char` per code point); `str.lower`,
  `str.strip` and whitespace splitting are modelled on the ASCII fragment,
  which is the alphabet the patterns and all concrete inputs use.
* Python floats are modelled as exact rationals `ℚ`; every float operation the
  code performs (division, `min`, `+ 0.3`, products) is exact on the values
  involved, so bounds and (dis)equalities transfer.
* Python `None` is `Option.none`; a dict field that may be missing or `None`
  is `Option (Option _)` (`none` = key absent, `some none` = key present with
  value `None`).
* The stdlib regex engine (`re.finditer`) is an external collaborator and is
  modelled as an oracle parameter `finditer : String → String → List PyMatch`
  (pattern source, subject ↦ matches in document order, scanned with
  `re.IGNORECASE | re.MULTILINE`).  The two fixed patterns used by
  `_normalize_value` are embedded directly as character scanners.
* The LLM backend (`llm_client.complete` + `json.loads`) is modelled as an
  oracle returning `Option LlmJson`, `none` covering every exception /
  parse failure.
-/

/-- Python truthiness of an optional string: `None` and `""` are falsy. -/
def pyFalsy : Option String → Bool
  | none => true
  | some s => s = ""

/-- Python `a or b` on optional strings: `a` if truthy, else `b`. -/
def pyOr (a b : Option String) : Option String :=
  if pyFalsy a then b else a

/-- Python `str.lower` (ASCII fragment), written over the character list so
that it evaluates by kernel reduction. -/
def pyLower (s : String) : String := String.mk (s.data.map Char.toLower)

/-- Python `str.strip` (ASCII whitespace fragment): drop leading and
trailing whitespace characters. -/
def pyStrip (s : String) : String :=
  String.mk (((s.data.dropWhile Char.isWhitespace).reverse.dropWhile
    Char.isWhitespace).reverse)

/-- Splitter behind Python `str.split()` (no separator): accumulate the
current word (reversed) and emit it at each whitespace run or at the end;
empty fragments never appear. -/
def wordsByAux (p : Char → Bool) : List Char → List Char → List String
  | [], acc => if acc.isEmpty then [] else [String.mk acc.reverse]
  | c :: rest, acc =>
    if p c then
      if acc.isEmpty then wordsByAux p rest []
      else String.mk acc.reverse :: wordsByAux p rest []
    else wordsByAux p rest (c :: acc)

/-- Python `str.split()`: the whitespace-delimited words of `s`. -/
def pyWords (s : String) : List String := wordsByAux Char.isWhitespace s.data []

/-- Python slice `s[i:j]` on code points (`i`, `j` already clamped to `ℕ`). -/
def pySlice (s : String) (i j : Nat) : String :=
  String.mk ((s.data.drop i).take (j - i))

/-- Python substring test `needle in hay` on character lists. -/
def containsSub (needle hay : List Char) : Bool :=
  (List.range (hay.length + 1)).any (fun i => needle.isPrefixOf (hay.drop i))

/-- Python `text.lower().split()`as a finite set of words: split on whitespace
runs, dropping empty fragments, then take the set. -/
def tokenSet (s : String) : Finset String :=
  (pyWords (pyLower s)).toFinset

/-- Jaccard similarity of the token sets of `q` and `ct`
(`field_extractor.py` lines 268-273): `|q ∩ c| / |q ∪ c|`, `0` if the union
is empty. -/
def jaccard (q ct : String) : ℚ :=
  let i : Nat := (tokenSet q ∩ tokenSet ct).card
  let u : Nat := (tokenSet q ∪ tokenSet ct).card
  if u = 0 then 0 else (i : ℚ) / (u : ℚ)

/-- Chunk similarity (`field_extractor.py` lines 270-277): Jaccard similarity
plus a flat `+0.3` boost, capped at `1.0`, when the lowered query is a literal
substring of the lowered chunk text. -/
def chunkSim (q ct : String) : ℚ :=
  if containsSub (pyLower q).data (pyLower ct).data
  then min 1 (jaccard q ct + 0.3)
  else jaccard q ct

/-- Input chunk dict (`{text, page_number?, section?}`); for `page_number` and
`section` the outer `Option` is key presence, the inner one the value (which
the orchestrator can set to `None`). -/
structure PyChunk where
  text : Option String
  page : Option (Option Int)
  sect : Option (Option String)
deriving Repr, DecidableEq

/-- Python `chunk.get(key, default)`: the default fires only when the key is
absent; a key present with value `None` yields `None`. -/
def pyGetOpt {α : Type} (v : Option (Option α)) (d : α) : Option α :=
  match v with
  | none => some d
  | some x => x

/-- Output citation dict built by `_find_citations`. -/
structure Citation where
  citation_text : String
  page_number : Option Int
  section_title : Option String
  relevance_score : ℚ
  chunk_id : String
deriving Repr, DecidableEq

/-- Intermediate scored-chunk dict of `_find_citations`. -/
structure Scored where
  text : String
  similarity : ℚ
  page : Option Int
  sect : Option String
  chunk_id : String
deriving Repr, DecidableEq

/-- Stable insertion into a list sorted by descending `similarity`: the new
element goes before the first element whose key is not larger.  Folding it
right-to-left gives the unique stable descending sort, which is what CPython's
`list.sort(key=..., reverse=True)` produces. -/
def insertDesc (x : Scored) : List Scored → List Scored
  | [] => [x]
  | y :: ys => if x.similarity < y.similarity then y :: insertDesc x ys else x :: y :: ys

/-- Stable sort by descending `similarity` (model of
`scored_chunks.sort(key=lambda x: x['similarity'], reverse=True)`). -/
def sortDesc : List Scored → List Scored
  | [] => []
  | x :: xs => insertDesc x (sortDesc xs)

/-- Embeds `_find_citations` (`field_extractor.py` lines 249-300): falsy query
gives `[]`; otherwise score every chunk, stable-sort by descending similarity,
take the first `top_k` and keep those with similarity strictly above `0`. -/
def findCitations (query : Option String) (chunks : List PyChunk) (top_k : Nat) :
    List Citation :=
  if pyFalsy query then [] else
  let q := query.getD ""
  let scored : List Scored := chunks.enum.map (fun p =>
    let ct := p.2.text.getD ""
    { text := ct
      similarity := chunkSim q ct
      page := pyGetOpt p.2.page 1
      sect := pyGetOpt p.2.sect "Main"
      chunk_id := toString p.1 })
  (((sortDesc scored).take top_k).filter (fun s => 0 < s.similarity)).map (fun s =>
    { citation_text := String.mk (s.text.data.take 500)
      page_number := s.page
      section_title := s.sect
      relevance_score := s.similarity
      chunk_id := s.chunk_id })

/-- Character class test for the chars matched by `[\d,]` (ASCII digits or a
comma). -/
def isDigitComma (c : Char) : Bool := c.isDigit || c = ','

/-- Scanner for one step of the date pattern `(\d{1,2})/(\d{1,2})/(\d{4})`:
one or two digits (greedy, so two when the second is followed by `/`) and the
following slash; the two alternatives are mutually exclusive, so no
backtracking across this step is possible.  Returns the digit group and the
remainder after the slash. -/
def mdSlash : List Char → Option (String × List Char)
  | a :: b :: c :: rest =>
    if a.isDigit && b.isDigit && c = '/' then some (String.mk [a, b], rest)
    else if a.isDigit && b = '/' then some (String.mk [a], c :: rest)
    else none
  | [a, b] => if a.isDigit && b = '/' then some (String.mk [a], []) else none
  | _ => none

/-- Scanner for `\d{4}`: exactly four digits at the head (no trailing
boundary is required by the pattern). -/
def year4 : List Char → Option String
  | a :: b :: c :: d :: _ =>
    if a.isDigit && b.isDigit && c.isDigit && d.isDigit
    then some (String.mk [a, b, c, d]) else none
  | _ => none

/-- Attempt of `(\d{1,2})/(\d{1,2})/(\d{4})` anchored at the head of the
list, returning the three capture groups. -/
def tryMDY (cs : List Char) : Option (String × String × String) :=
  match mdSlash cs with
  | none => none
  | some (m, r1) =>
    match mdSlash r1 with
    | none => none
    | some (d, r2) =>
      match year4 r2 with
      | none => none
      | some y => some (m, d, y)

/-- Leftmost match of `(\d{1,2})/(\d{1,2})/(\d{4})`, as
`re.search` finds it: first position (scanning left to right) where the
anchored attempt succeeds. -/
def scanMDY : List Char → Option (String × String × String)
  | [] => none
  | c :: rest =>
    match tryMDY (c :: rest) with
    | some g => some g
    | none => scanMDY rest

/-- Attempt of `(\d{4})-(\d{2})-(\d{2})` anchored at the head, returning the
whole match (`m.group(0)`). -/
def tryYMD (cs : List Char) : Option String :=
  match cs with
  | a :: b :: c :: d :: h1 :: e :: f :: h2 :: g :: k :: _ =>
    if a.isDigit && b.isDigit && c.isDigit && d.isDigit && h1 = '-' &&
       e.isDigit && f.isDigit && h2 = '-' && g.isDigit && k.isDigit
    then some (String.mk [a, b, c, d, h1, e, f, h2, g, k]) else none
  | _ => none

/-- Leftmost match of `(\d{4})-(\d{2})-(\d{2})` (`re.search` semantics). -/
def scanYMD : List Char → Option String
  | [] => none
  | c :: rest =>
    match tryYMD (c :: rest) with
    | some s => some s
    | none => scanYMD rest

/-- Python format spec `0>2` applied to a string: pad on the left with `0`
to width 2 (never truncates). -/
def pad2 (s : String) : String := if s.length < 2 then "0" ++ s else s

/-- Scanner for the currency pattern `\$?([\d,]+\.?\d*)`: the leftmost match
starts at the first digit-or-comma character (optionally with a `$`
immediately before it, which is outside the group); the group is the maximal
`[\d,]` run, then an optional `.`, then a maximal digit run.  Returns
`m.group(1)`. -/
def currencyGroup : List Char → Option String
  | [] => none
  | c :: rest =>
    if isDigitComma c then
      let run1 := (c :: rest).takeWhile isDigitComma
      let r1 := (c :: rest).dropWhile isDigitComma
      match r1 with
      | '.' :: r2 => some (String.mk (run1 ++ '.' :: r2.takeWhile Char.isDigit))
      | _ => some (String.mk run1)
    else currencyGroup rest

/-- Python `any(word in value_lower for word in words)`. -/
def anyWordIn (words : List String) (value_lower : String) : Bool :=
  words.any (fun w => containsSub w.data value_lower.data)

/-- Python `str.capitalize`: first character uppercased, the rest
lowercased. -/
def pyCapitalize (w : String) : String :=
  match w.data with
  | [] => ""
  | c :: cs => String.mk (c.toUpper :: cs.map Char.toLower)

/-- Embeds `_normalize_value` (`field_extractor.py` lines 302-339).  Falsy
input gives `None`; the value is stripped, then handled per field type; any
branch that finds nothing falls through to the stripped value.

Note on the DATE branch: line 313 of the source writes the replacement as
  f"{m.group(3)}-{m.group(1):0>2}-{m.group(2):0>2}')
with a stray closing single quote, leaving the f-string literal unterminated
(a SyntaxError - the module cannot even be imported as written).  This
definition embeds the evident intent, a closing double quote, i.e. the
replacement  year-paddedmonth-paddedday, as also described by the comment
above that line in the source. -/
def normalizeValue (value : Option String) (field_type : String) : Option String :=
  if pyFalsy value then none else
  let v := pyStrip (value.getD "")
  if field_type = "DATE" then
    match scanMDY v.data with
    | some (m, d, y) => some (y ++ "-" ++ pad2 m ++ "-" ++ pad2 d)
    | none =>
      match scanYMD v.data with
      | some s => some s
      | none => some v
  else if field_type = "CURRENCY" then
    match currencyGroup v.data with
    | some g => some ("USD " ++ String.mk (g.data.filter (fun c => c ≠ ',')))
    | none => some v
  else if field_type = "BOOLEAN" then
    if anyWordIn ["yes", "true", "agreed", "confirmed"] (pyLower v) then some "true"
    else if anyWordIn ["no", "false", "denied", "rejected"] (pyLower v) then some "false"
    else some v
  else if field_type = "ENTITY" then
    some (String.intercalate " " ((pyWords v).map pyCapitalize))
  else some v

/-- Test for `re.match(r'\d{4}-\d{2}-\d{2}', s)`: the 10-character date shape
anchored at the start of the string. -/
def startsYMD (s : String) : Bool := (tryYMD s.data).isSome

/-- Embeds `_validate_extraction` (`field_extractor.py` lines 341-372): a
multiplicative confidence adjustment in `{0, 0.5, 0.6, 0.8, 1}`. -/
def validateExtraction (extracted normalized : Option String) (field_type : String) : ℚ :=
  if pyFalsy extracted then 0 else
  if pyFalsy normalized then 0.5 else
  let n := normalized.getD ""
  if field_type = "DATE" then (if startsYMD n then 1 else 0.6)
  else if field_type = "CURRENCY" then
    (if containsSub "USD".data n.data && n.data.any isDigitComma then 1 else 0.6)
  else if field_type = "BOOLEAN" then (if n = "true" || n = "false" then 1 else 0.5)
  else 0.8

/-- Characters escaped by Python `re.escape` (the 3.7+ special set, including
the braces and the `\v`/`\f` controls, written by code point to keep the
regex-source strings plain). -/
def reSpecial : List Char :=
  "()[]?*+-|^$\\.&~# \t\n\r".data ++ [Char.ofNat 123, Char.ofNat 125, Char.ofNat 11, Char.ofNat 12]

/-- Python `re.escape`. -/
def reEscape (s : String) : String :=
  String.mk (s.data.flatMap (fun c => if reSpecial.contains c then ['\\', c] else [c]))

/-- The generic fallback pattern built from the literal field name
(`field_extractor.py` line 245). -/
def genericPattern (field_name : String) : String :=
  "(?:" ++ reEscape field_name ++ ")[:\\s]+([A-Za-z0-9\\s,\\-$().%]+?)(?:[.;]|and)"

/-- Embeds `_get_patterns_for_field` (`field_extractor.py` lines 210-247):
category dispatch by substring of the lowered field name (or declared type for
DATE/CURRENCY), first matching category wins, and the generic fallback pattern
is always appended last.  Pattern sources are carried verbatim (braces written
as \x7b/\x7d escapes). -/
def getPatternsForField (field_name field_type : String) : List (String × ℚ) :=
  let fnl := pyLower field_name
  let base : List (String × ℚ) :=
    if containsSub "date".data fnl.data || field_type = "DATE" then
      [("(\\d\x7b1,2\x7d/\\d\x7b1,2\x7d/\\d\x7b4\x7d)", 0.3),
       ("(\\d\x7b4\x7d-\\d\x7b2\x7d-\\d\x7b2\x7d)", 0.3),
       ("(January|February|March|April|May|June|July|August|September|October|November|December)\\s+\\d\x7b1,2\x7d,?\\s+\\d\x7b4\x7d", 0.4)]
    else if containsSub "party".data fnl.data || containsSub "parties".data fnl.data then
      [("(?:Between|BETWEEN|between)\\s+([A-Z][A-Za-z\\s&.,]+?)\\s+(?:and|AND)", 0.3),
       ("(?:Party|PARTY):\\s*([A-Z][A-Za-z\\s&.,]+?)(?:\\n|;)", 0.4)]
    else if containsSub "effective".data fnl.data || containsSub "term".data fnl.data then
      [("(?:effective|Effective|EFFECTIVE)(?:\\s+date)?[:\\s]+([A-Za-z0-9\\s,./\\-]+?)(?:[,;]|and|on)", 0.3),
       ("(?:term|Term|TERM)[:\\s]+([A-Za-z0-9\\s,./\\-]+?)(?:[,;]|and|\\n)", 0.3)]
    else if containsSub "currency".data fnl.data || containsSub "amount".data fnl.data ||
            field_type = "CURRENCY" then
      [("\\$[\\d,]+\\.?\\d*", 0.4),
       ("(USD|EUR|GBP)[\\s]*[\\d,]+\\.?\\d*", 0.3)]
    else if containsSub "liable".data fnl.data || containsSub "liability".data fnl.data then
      [("(?:liability|Liability|LIABLE)[:\\s]+([A-Za-z0-9\\s,\\-$().%]+?)(?:[.;]|and|as)", 0.3)]
    else []
  base ++ [(genericPattern field_name, 0.2)]

/-- One `re` match object, as far as the heuristic strategy inspects it:
span endpoints in code points and `grp1 = some g` when the pattern has capture
groups (then `g` is `m.group(1)`), `none` when it has none (the code then uses
`m.group(0)`, the span slice).  A pattern whose group 1 exists but did not
participate would make the source raise (`None.strip()`); that failure is
covered by the per-field exception channel of `extractFields`. -/
structure PyMatch where
  start : Nat
  stop : Nat
  grp1 : Option String
deriving Repr, DecidableEq

/-- `match.group(1) if match.groups() else match.group(0)`
(`field_extractor.py` line 192). -/
def extractedOf (text : String) (m : PyMatch) : String :=
  match m.grp1 with
  | some g => g
  | none => pySlice text m.start m.stop

/-- The symmetric context window `document_text[max(0, start-100) :
min(len, end+100)]` (`field_extractor.py` lines 195-197). -/
def windowRaw (text : String) (m : PyMatch) : String :=
  pySlice text (m.start - 100) (min text.length (m.stop + 100))

/-- Raw result of one extraction strategy: the dict
`{value, raw_text, confidence}`. -/
structure StratResult where
  value : Option String
  raw_text : Option String
  confidence : ℚ
deriving Repr, DecidableEq

/-- Pattern loop of `_extract_with_heuristics` (`field_extractor.py` lines
188-208): first pattern with a match wins, its first match is used, value and
context window are stripped, confidence is `min(1.0, 0.6 + boost)`; no match
at all gives the all-`None` zero-confidence result. -/
def goHeur (finditer : String → String → List PyMatch) (text : String) :
    List (String × ℚ) → StratResult
  | [] => ⟨none, none, 0⟩
  | (p, boost) :: rest =>
    match finditer p text with
    | [] => goHeur finditer text rest
    | m :: _ =>
      ⟨some (pyStrip (extractedOf text m)), some (pyStrip (windowRaw text m)),
       min 1 (0.6 + boost)⟩

/-- Embeds `_extract_with_heuristics` (`field_extractor.py` lines 177-208),
with the regex engine as an oracle. -/
def extractWithHeuristics (finditer : String → String → List PyMatch)
    (text field_name field_type : String) : StratResult :=
  goHeur finditer text (getPatternsForField field_name field_type)

/-- Parsed JSON response of the generative backend
(`{"value": ..., "raw_text": ..., "confidence": ...}`). -/
structure LlmJson where
  value : Option String
  raw_text : Option String
  confidence : ℚ
deriving Repr, DecidableEq

/-- Embeds `_extract_with_llm` (`field_extractor.py` lines 135-175): `resp`
is `json.loads(llm_client.complete(prompt))`, with `none` covering every
backend or parse exception; the success path caps the reported confidence at
`1.0` from above only (`min(1.0, ...)` - there is no lower clamp). -/
def extractWithLlm (resp : Option LlmJson) : StratResult :=
  match resp with
  | none => ⟨none, none, 0⟩
  | some r => ⟨r.value, r.raw_text, min 1 r.confidence⟩

/-- One extraction result dict; `error = some _` models the error dict of the
`except` branch (which carries no citations and zero confidence), `error =
none` the success dict.  The `extraction_metadata` entry (method tag and
wall-clock timestamp) is not modelled; no claim mentions it. -/
structure ExtractionRecord where
  field_name : String
  field_type : String
  extracted_value : Option String
  raw_text : Option String
  normalized_value : Option String
  confidence_score : ℚ
  citations : List Citation
  error : Option String
deriving Repr, DecidableEq

/-- The error record returned by the `except` branch of
`_extract_single_field` (`field_extractor.py` lines 122-133). -/
def errorRecord (field_name field_type e : String) : ExtractionRecord :=
  { field_name := field_name, field_type := field_type, extracted_value := none,
    raw_text := none, normalized_value := none, confidence_score := 0,
    citations := [], error := some e }

/-- Embeds `_extract_single_field` (`field_extractor.py` lines 66-133).  The
chosen strategy (fixed per extractor instance) is abstracted as
`strat name type description`, returning `Except.error` when the `try` body
raises (e.g. the heuristic group-1 crash or a non-string field name); the
`except` branch returns the error record.  The success path ranks citations
over `raw_text or value`, normalizes, validates, and caps the final
confidence with `min(1.0, confidence * validation_score)`. -/
def extractSingleField (strat : String → String → String → Except String StratResult)
    (chunks : List PyChunk) (field_name field_type description : String) :
    ExtractionRecord :=
  match strat field_name field_type description with
  | Except.error e => errorRecord field_name field_type e
  | Except.ok r =>
    let citations := findCitations (pyOr r.raw_text r.value) chunks 3
    let normalized := normalizeValue r.value field_type
    let vscore := validateExtraction r.value normalized field_type
    { field_name := field_name, field_type := field_type,
      extracted_value := r.value, raw_text := r.raw_text,
      normalized_value := normalized,
      confidence_score := min 1 (r.confidence * vscore),
      citations := citations, error := none }

/-- The heuristic strategy as used when no `llm_client` is configured. -/
def heuristicStrat (finditer : String → String → List PyMatch) (text : String) :
    String → String → String → Except String StratResult :=
  fun n t _ => Except.ok (extractWithHeuristics finditer text n t)

/-- The LLM strategy as used when an `llm_client` is configured: `respond`
maps (name, type, description) - the varying parts of the fixed-shape
prompt - to the parsed backend response. -/
def llmStrat (respond : String → String → String → Option LlmJson) :
    String → String → String → Except String StratResult :=
  fun n t d => Except.ok (extractWithLlm (respond n t d))

/-- One element of the `field_definitions` request list.  `dict n t d`
carries the values after the `.get` defaults (`name` default `""`,
`field_type` default `"TEXT"`, `description` default `""`), so dicts with
missing keys are covered; `notDict` is any non-dict element, on which
`field_def.get(...)` raises `AttributeError`. -/
inductive PyFieldDef where
  | dict (name field_type description : String)
  | notDict
deriving Repr, DecidableEq

/-- Embeds `extract_fields` (`field_extractor.py` lines 27-64).  The per-field
loop appends one record per definition; the `field_def.get` calls happen in
the loop body, outside the per-field `try`, so a non-dict definition raises
out of the whole batch - modelled as `Except.error`. -/
def extractFields (strat : String → String → String → Except String StratResult)
    (chunks : List PyChunk) : List PyFieldDef → Except String (List ExtractionRecord)
  | [] => Except.ok []
  | PyFieldDef.notDict :: _ =>
    Except.error "AttributeError: object has no attribute get"
  | PyFieldDef.dict n t d :: rest =>
    match extractFields strat chunks rest with
    | Except.error e => Except.error e
    | Except.ok rs => Except.ok (extractSingleField strat chunks n t d :: rs)

/-- Length of the longest common suffix of `a[alo..i]` and `b[blo..j]`
(both endpoints included), the `j2len` run length of
`difflib.SequenceMatcher.find_longest_match`. -/
def suffLen (a b : List Char) (alo blo : Nat) : Nat → Nat → Nat
  | 0, j => if a.get? 0 ≠ none ∧ a.get? 0 = b.get? j then 1 else 0
  | i + 1, j =>
    if a.get? (i + 1) ≠ none ∧ a.get? (i + 1) = b.get? j then
      (if alo < i + 1 ∧ blo < j then suffLen a b alo blo i (j - 1) + 1 else 1)
    else 0

/-- Candidate pairs `(i, j)` of `find_longest_match` in iteration order
(`i` ascending over `[alo, ahi)`, `j` ascending over `[blo, bhi)`). -/
def lexPairs (alo ahi blo bhi : Nat) : List (Nat × Nat) :=
  (List.range' alo (ahi - alo)).flatMap
    (fun i => (List.range' blo (bhi - blo)).map (fun j => (i, j)))

/-- Best-block fold of `find_longest_match`: the running best `(besti, bestj,
bestsize)` is replaced only on a strictly larger run length, so the final
block is the first pair (in iteration order) realising the maximal length -
exactly CPython's tie-breaking.  (With no junk characters - `SequenceMatcher
(None, a, b)` below the autojunk threshold - the trailing junk-extension loops
of the source are no-ops.) -/
def flmFold (a b : List Char) (alo blo : Nat) :
    List (Nat × Nat) → Nat × Nat × Nat → Nat × Nat × Nat
  | [], best => best
  | (i, j) :: rest, (bi, bj, bk) =>
    let k := suffLen a b alo blo i j
    if bk < k then flmFold a b alo blo rest (i + 1 - k, j + 1 - k, k)
    else flmFold a b alo blo rest (bi, bj, bk)

/-- Embeds `SequenceMatcher.find_longest_match` on the window
`a[alo:ahi] x b[blo:bhi]` (no junk). -/
def findLongestMatch (a b : List Char) (alo ahi blo bhi : Nat) : Nat × Nat × Nat :=
  flmFold a b alo blo (lexPairs alo ahi blo bhi) (alo, blo, 0)

/-- Total size of the matching blocks of `get_matching_blocks` on a window:
recurse on both sides of the longest match.  Structured on explicit fuel so
that the definition evaluates by kernel reduction; every recursive call
strictly shrinks `ahi - alo`, so any `fuel > ahi - alo` computes the
untruncated recursion (the top-level wrapper passes `a.length + 1`). -/
def matchTotal (a b : List Char) : Nat → Nat → Nat → Nat → Nat → Nat
  | 0, _, _, _, _ => 0
  | fuel + 1, alo, ahi, blo, bhi =>
    match findLongestMatch a b alo ahi blo bhi with
    | (bi, bj, k) =>
      if k = 0 then 0
      else matchTotal a b fuel alo bi blo bj + k +
           matchTotal a b fuel (bi + k) ahi (bj + k) bhi

/-- Embeds `SequenceMatcher(None, a, b).ratio()`: `2*M / (len(a) + len(b))`
with `M` the total matched size (and `1.0` when both are empty, as in
`difflib._calculate_ratio`). -/
def smScore (a b : List Char) : ℚ :=
  let t := a.length + b.length
  if t = 0 then 1
  else 2 * (matchTotal a b (a.length + 1) 0 a.length 0 b.length : ℚ) / (t : ℚ)

/-- Embeds `EvaluationService._calculate_match_score`
(`service_orchestrator.py` lines 525-541): if either value is falsy, `1.0`
exactly when the two Python values are equal, else `0.0`; otherwise lowercase
and strip both, `1.0` on equality, else the `SequenceMatcher` ratio. -/
def matchScore (ai_value human_value : Option String) : ℚ :=
  if pyFalsy ai_value || pyFalsy human_value then
    (if ai_value = human_value then 1 else 0)
  else
    let a := pyStrip (pyLower (ai_value.getD ""))
    let h := pyStrip (pyLower (human_value.getD ""))
    if a = h then 1 else smScore a.data h.data

/-- A project document as the comparison table consumes it (only the id is
read when building cells; filename/file_type only decorate the header). -/
structure PyDoc where
  id : String
deriving Repr, DecidableEq

/-- A stored extraction record as `generate_comparison_table` reads it. -/
structure PyExtraction where
  id : String
  field_name : String
  field_type : String
  document_id : String
  extracted_value : Option String
  normalized_value : Option String
  confidence_score : ℚ
  status : String
deriving Repr, DecidableEq

/-- One cell of a comparison row: a summary of an extraction record, or the
sentinel dict `{extracted_value, confidence_score}` for missing
combinations. -/
inductive Cell where
  | fromExtraction (id : String) (extracted_value normalized_value : Option String)
      (confidence_score : ℚ) (status : String)
  | sentinel (extracted_value : String) (confidence_score : ℚ)
deriving Repr, DecidableEq

/-- The cell summarising one extraction record
(`service_orchestrator.py` lines 424-430). -/
def cellOf (e : PyExtraction) : Cell :=
  Cell.fromExtraction e.id e.extracted_value e.normalized_value e.confidence_score e.status

/-- Python dict assignment `d[k] = v` on an insertion-ordered association
list: overwrite in place when the key exists, else append. -/
def upsert (d : List (String × Cell)) (k : String) (v : Cell) : List (String × Cell) :=
  if d.any (fun p => p.1 = k) then d.map (fun p => if p.1 = k then (k, v) else p)
  else d ++ [(k, v)]

/-- One entry of the `field_groups` dict (keyed by field name, in first-seen
order; `field_type` comes from the first record seen for the field). -/
structure FieldGroup where
  field_name : String
  field_type : String
  results : List (String × Cell)
deriving Repr, DecidableEq

/-- Processing of one extraction record into `field_groups`
(`service_orchestrator.py` lines 414-430). -/
def addExtraction (gs : List FieldGroup) (e : PyExtraction) : List FieldGroup :=
  if gs.any (fun g => g.field_name = e.field_name) then
    gs.map (fun g =>
      if g.field_name = e.field_name then
        { g with results := upsert g.results e.document_id (cellOf e) }
      else g)
  else
    gs ++ [{ field_name := e.field_name, field_type := e.field_type,
             results := [(e.document_id, cellOf e)] }]

/-- The `field_groups` dict built by the grouping loop. -/
def fieldGroups (es : List PyExtraction) : List FieldGroup :=
  es.foldl addExtraction []

/-- One comparison row (`{field_name, field_type, document_results}`). -/
structure ComparisonRow where
  field_name : String
  field_type : String
  document_results : List (String × Cell)
deriving Repr, DecidableEq

/-- The dict comprehension `{doc.id: group['results'].get(doc.id, sentinel)
for doc in documents}` (`service_orchestrator.py` lines 436-442). -/
def dictComp (docs : List PyDoc) (f : String → Cell) : List (String × Cell) :=
  docs.foldl (fun d doc => upsert d doc.id (f doc.id)) []

/-- The row built for one field group. -/
def rowOf (docs : List PyDoc) (g : FieldGroup) : ComparisonRow :=
  { field_name := g.field_name, field_type := g.field_type,
    document_results :=
      dictComp docs (fun did =>
        match g.results.lookup did with
        | some c => c
        | none => Cell.sentinel "N/A" 0) }

/-- Embeds the row construction of
`ComparisonService.generate_comparison_table` (`service_orchestrator.py`
lines 397-446): empty documents or empty extractions short-circuit to no
rows; otherwise one row per field group, one cell per document, missing
(document, field) pairs filled with the `"N/A"` / `0.0` sentinel. -/
def generateComparisonRows (docs : List PyDoc) (es : List PyExtraction) :
    List ComparisonRow :=
  if docs.isEmpty || es.isEmpty then []
  else (fieldGroups es).map (rowOf docs)

/-- Single-entry regex oracle: the given matches on the given
(pattern, subject) pair, no match anywhere else. -/
def finditerAt (pat text : String) (ms : List PyMatch) :
    String → String → List PyMatch :=
  fun p t => if p = pat && t = text then ms else []

/-- Oracle recording what `re.finditer` (IGNORECASE|MULTILINE) returns for
the generic pattern of field "Field" on the text "Field: foo and": one match
spanning the whole text; `[:\s]+` consumes ": ", the lazy group grows to
"foo " (the space is needed before the alternative "and" can close the
match), so `m.group(1)` carries a trailing space. -/
def oracleGeneric : String → String → List PyMatch :=
  finditerAt (genericPattern "Field") "Field: foo and" [⟨0, 14, some "foo "⟩]

/-- Oracle recording what `re.finditer` returns for the first DATE pattern
`(\d{1,2}/\d{1,2}/\d{4})` on "Due 01/15/2024 now.": one match at span
[4, 14), whose group 1 is the whole matched slice. -/
def oracleDate : String → String → List PyMatch :=
  finditerAt "(\\d\x7b1,2\x7d/\\d\x7b1,2\x7d/\\d\x7b4\x7d)" "Due 01/15/2024 now."
    [⟨4, 14, some "01/15/2024"⟩]

/-- Sample stored extraction record (document `D1`, field `Term`). -/
def extSample : PyExtraction :=
  { id := "e1", field_name := "Term", field_type := "TEXT", document_id := "D1",
    extracted_value := some "12 months", normalized_value := none,
    confidence_score := 0.9, status := "PENDING" }

lemma mem_insertDesc {x y : Scored} {l : List Scored} :
    y ∈ insertDesc x l ↔ y = x ∨ y ∈ l := by
  induction l with
  | nil => simp [insertDesc]
  | cons z zs ih =>
    by_cases h : x.similarity < z.similarity
    · simp only [insertDesc, if_pos h, List.mem_cons, ih]
      tauto
    · simp only [insertDesc, if_neg h, List.mem_cons]

lemma mem_sortDesc {y : Scored} {l : List Scored} :
    y ∈ sortDesc l ↔ y ∈ l := by
  induction l with
  | nil => simp [sortDesc]
  | cons z zs ih => simp [sortDesc, mem_insertDesc, ih]

lemma snd_mem_of_mem_enumFrom {α : Type} {p : Nat × α} :
    ∀ {n : Nat} {l : List α}, p ∈ l.enumFrom n → p.2 ∈ l := by
  intro n l
  induction l generalizing n with
  | nil => simp [List.enumFrom]
  | cons a as ih =>
    intro h
    rcases List.mem_cons.mp h with h | h
    · subst h
      simp
    · exact List.mem_cons_of_mem _ (ih h)

lemma snd_mem_of_mem_enum {α : Type} {p : Nat × α} {l : List α}
    (h : p ∈ l.enum) : p.2 ∈ l :=
  snd_mem_of_mem_enumFrom h

/-- Every returned citation arises from one input chunk, carries that chunk's
similarity score (which is strictly positive) and its `.get`-defaulted page
and section. -/
lemma findCitations_mem {q : Option String} {chunks : List PyChunk} {k : Nat}
    {c : Citation} (h : c ∈ findCitations q chunks k) :
    ∃ ch ∈ chunks,
      c.relevance_score = chunkSim (q.getD "") (ch.text.getD "") ∧
      c.page_number = pyGetOpt ch.page 1 ∧
      c.section_title = pyGetOpt ch.sect "Main" ∧
      0 < c.relevance_score := by
  unfold findCitations at h
  by_cases hq : pyFalsy q
  · simp [hq] at h
  · simp only [hq, Bool.false_eq_true, if_false] at h
    obtain ⟨s, hs, rfl⟩ := List.mem_map.mp h
    have hsf := List.mem_filter.mp hs
    have hpos : 0 < s.similarity := by
      have := hsf.2
      simpa using this
    have hstake : s ∈ (sortDesc _).take k := hsf.1
    have hsort : s ∈ sortDesc _ := List.take_subset _ _ hstake
    have hscored := mem_sortDesc.mp hsort
    obtain ⟨p, hp, rfl⟩ := List.mem_map.mp hscored
    exact ⟨p.2, snd_mem_of_mem_enum hp, rfl, rfl, rfl, hpos⟩

lemma jaccard_nonneg (q ct : String) : 0 ≤ jaccard q ct := by
  unfold jaccard
  by_cases h : (tokenSet q ∪ tokenSet ct).card = 0
  · simp [h]
  · simp only [h, if_false]
    positivity

lemma jaccard_le_one (q ct : String) : jaccard q ct ≤ 1 := by
  unfold jaccard
  by_cases h : (tokenSet q ∪ tokenSet ct).card = 0
  · simp [h]
  · simp only [h, if_false]
    rw [div_le_one (by positivity)]
    exact_mod_cast Finset.card_le_card Finset.inter_subset_union

lemma chunkSim_nonneg (q ct : String) : 0 ≤ chunkSim q ct := by
  unfold chunkSim
  split
  · exact le_min (by norm_num) (by linarith [jaccard_nonneg q ct])
  · exact jaccard_nonneg q ct

lemma chunkSim_le_one (q ct : String) : chunkSim q ct ≤ 1 := by
  unfold chunkSim
  split
  · exact min_le_left _ _
  · exact jaccard_le_one q ct

/-- C5.  Citation ranking returns `[]` on an empty or absent query, never
more than `top_k` citations, only citations with strictly positive
relevance, and is a pure function of its inputs (same inputs, same output,
same order). -/
theorem spec_c5 (query : Option String) (chunks : List PyChunk) (k : Nat) :
    (pyFalsy query = true → findCitations query chunks k = [])
    ∧ (findCitations query chunks k).length ≤ k
    ∧ (∀ c ∈ findCitations query chunks k, 0 < c.relevance_score)
    ∧ findCitations query chunks k = findCitations query chunks k := by
  refine ⟨?_, ?_, ?_, rfl⟩
  · intro h
    simp [findCitations, h]
  · unfold findCitations
    by_cases hq : pyFalsy query
    · simp [hq]
    · simp only [hq, Bool.false_eq_true, if_false, List.length_map]
      calc (((sortDesc _).take k).filter _).length
          ≤ ((sortDesc _).take k).length := List.length_filter_le _ _
        _ ≤ k := List.length_take_le k _
  · intro c hc
    obtain ⟨ch, _, _, _, _, hpos⟩ := findCitations_mem hc
    exact hpos

/-- C5 witness: concrete run on one chunk with `top_k = 1`. -/
theorem spec_c5_witness :
    findCitations none [⟨some "alpha", none, none⟩] 1 = []
    ∧ (findCitations (some "alpha") [⟨some "alpha", none, none⟩] 1).length ≤ 1 := by
  have h := spec_c5 none [⟨some "alpha", none, none⟩] 1
  have h2 := spec_c5 (some "alpha") [⟨some "alpha", none, none⟩] 1
  exact ⟨h.1 rfl, h2.2.1⟩

/-- C8.  Similarity score corner cases: `score(x, x) = 1` for non-empty `x`;
with an absent side the score is `1` exactly when both sides are absent and
`0` otherwise; in particular `score(None, None) = 1` and
`score("A", None) = 0`. -/
theorem spec_c8 :
    (∀ x : String, x ≠ "" → matchScore (some x) (some x) = 1)
    ∧ matchScore none none = 1
    ∧ matchScore (some "A") none = 0
    ∧ (∀ a b : Option String, a = none ∨ b = none →
        (matchScore a b = 1 ↔ a = none ∧ b = none)
        ∧ (¬(a = none ∧ b = none) → matchScore a b = 0)) := by
  refine ⟨?_, by simp [matchScore, pyFalsy], by simp [matchScore, pyFalsy], ?_⟩
  · intro x hx
    simp [matchScore, pyFalsy, hx]
  · intro a b hab
    rcases hab with rfl | rfl
    · cases b with
      | none => simp [matchScore, pyFalsy]
      | some s => simp [matchScore, pyFalsy]
    · cases a with
      | none => simp [matchScore, pyFalsy]
      | some s => simp [matchScore, pyFalsy]

/-- C8 witness: the theorem applied at `x = "abc"` and at
`(None, some "z")`. -/
theorem spec_c8_witness :
    matchScore (some "abc") (some "abc") = 1 ∧ matchScore none (some "z") = 0 :=
  ⟨spec_c8.1 "abc" (by decide),
   (spec_c8.2.2.2 none (some "z") (Or.inl rfl)).2 (by simp)⟩

/-- C6.  DATE normalization of the evident intent of `_normalize_value`
(see the note on `normalizeValue`; the source line itself is an unterminated
string literal): a value containing `MM/DD/YYYY` maps to zero-padded
`YYYY-MM-DD` (in particular `"01/15/2024" ↦ "2024-01-15"`), a value already
shaped `YYYY-MM-DD` passes through, and any other grammar returns the
stripped original unchanged. -/
theorem spec_c6 :
    normalizeValue (some "01/15/2024") "DATE" = some "2024-01-15"
    ∧ normalizeValue (some "2024-01-15") "DATE" = some "2024-01-15"
    ∧ (∀ v : String, v ≠ "" → scanMDY (pyStrip v).data = none →
        scanYMD (pyStrip v).data = none →
        normalizeValue (some v) "DATE" = some (pyStrip v))
    ∧ (∀ v m d y : String, v ≠ "" →
        scanMDY (pyStrip v).data = some (m, d, y) →
        normalizeValue (some v) "DATE" = some (y ++ "-" ++ pad2 m ++ "-" ++ pad2 d)) := by
  refine ⟨by decide, by decide, ?_, ?_⟩
  · intro v hv h1 h2
    simp [normalizeValue, pyFalsy, hv, h1, h2]
  · intro v m d y hv h1
    simp [normalizeValue, pyFalsy, hv, h1]

/-- C6 witness: the pass-through branch at `"March 5, 2024"` (a grammar the
normalizer does not handle) and the conversion branch at `"1/5/2024"`. -/
theorem spec_c6_witness :
    normalizeValue (some "March 5, 2024") "DATE" = some "March 5, 2024"
    ∧ normalizeValue (some "1/5/2024") "DATE" =
        some ("2024" ++ "-" ++ pad2 "1" ++ "-" ++ pad2 "5") := by
  constructor
  · exact spec_c6.2.2.1 "March 5, 2024" (by decide) (by decide) (by decide)
  · exact spec_c6.2.2.2 "1/5/2024" "1" "5" "2024" (by decide) (by decide)

/-- C4 (amended).  For field-definition lists whose elements are dicts,
`extract_fields` returns exactly one record per definition in order, a
strategy failure on one field yields the error record for that field only
(null value, zero confidence, no citations, `error` set), and the batch
result is always `ok`.  (A non-dict element, by contrast, aborts the batch -
see the counterexample.) -/
theorem spec_c4_amended :
    (∀ strat chunks (defs : List (String × String × String)),
      extractFields strat chunks
          (defs.map (fun x => PyFieldDef.dict x.1 x.2.1 x.2.2))
        = Except.ok (defs.map (fun x => extractSingleField strat chunks x.1 x.2.1 x.2.2)))
    ∧ (∀ strat chunks n t d e, strat n t d = Except.error e →
        extractSingleField strat chunks n t d = errorRecord n t e)
    ∧ (∀ n t e : String, (errorRecord n t e).extracted_value = none
        ∧ (errorRecord n t e).confidence_score = 0
        ∧ (errorRecord n t e).citations = []
        ∧ (errorRecord n t e).error = some e) := by
  refine ⟨?_, ?_, fun n t e => ⟨rfl, rfl, rfl, rfl⟩⟩
  · intro strat chunks defs
    induction defs with
    | nil => rfl
    | cons x xs ih => simp [extractFields, ih]
  · intro strat chunks n t d e h
    simp [extractSingleField, h]

/-- C4 witness: a two-field batch whose strategy always raises still returns
one (error) record per field. -/
theorem spec_c4_witness :
    extractFields (fun _ _ _ => Except.error "boom") []
        [PyFieldDef.dict "A" "TEXT" "", PyFieldDef.dict "B" "DATE" ""]
      = Except.ok [errorRecord "A" "TEXT" "boom", errorRecord "B" "DATE" "boom"] := by
  have h1 := spec_c4_amended.1 (fun _ _ _ => Except.error "boom") []
      [("A", "TEXT", ""), ("B", "DATE", "")]
  have h2 := spec_c4_amended.2.1 (fun _ _ _ => Except.error "boom") [] "A" "TEXT" "" "boom" rfl
  have h3 := spec_c4_amended.2.1 (fun _ _ _ => Except.error "boom") [] "B" "DATE" "" "boom" rfl
  simpa [h2, h3] using h1

/-- C4 counterexample: a field-definitions list containing a malformed
(non-dict) entry makes `extract_fields` raise (`field_def.get` is called in
the loop, outside the per-field `try`), aborting the whole batch instead of
producing a per-field error record. -/
theorem spec_c4_cex :
    extractFields (fun _ _ _ => Except.ok ⟨none, none, 0⟩) [] [PyFieldDef.notDict]
      = Except.error "AttributeError: object has no attribute get" := rfl

lemma goHeur_value_none_raw (finditer : String → String → List PyMatch)
    (text : String) :
    ∀ ps, (goHeur finditer text ps).value = none →
      (goHeur finditer text ps).raw_text = none := by
  intro ps
  induction ps with
  | nil => intro _; rfl
  | cons p rest ih =>
    obtain ⟨pat, boost⟩ := p
    cases h : finditer pat text with
    | nil =>
      intro hv
      simp only [goHeur, h] at hv ⊢
      exact ih hv
    | cons m ms =>
      intro hv
      simp [goHeur, h] at hv

/-- C2 (amended).  A record with a null `extracted_value` always has
`confidence_score = 0`, and its citations are empty whenever `raw_text` is
also null; under the heuristic strategy a null value forces a null
`raw_text`, so heuristic records with null value always have empty
citations.  (The LLM strategy can return a null value together with a
non-null `raw_text`, in which case citations may be non-empty - see the
counterexample.) -/
theorem spec_c2_amended :
    (∀ strat chunks n t d,
      ((extractSingleField strat chunks n t d).extracted_value = none →
        (extractSingleField strat chunks n t d).confidence_score = 0)
      ∧ ((extractSingleField strat chunks n t d).extracted_value = none →
          (extractSingleField strat chunks n t d).raw_text = none →
          (extractSingleField strat chunks n t d).citations = []))
    ∧ (∀ finditer text n t,
        (extractWithHeuristics finditer text n t).value = none →
        (extractWithHeuristics finditer text n t).raw_text = none) := by
  constructor
  · intro strat chunks n t d
    cases hs : strat n t d with
    | error e => simp [extractSingleField, hs, errorRecord]
    | ok r =>
      constructor
      · intro hv
        simp only [extractSingleField, hs] at hv ⊢
        simp only [hv, validateExtraction, pyFalsy, if_pos rfl]
        norm_num
      · intro hv hr
        simp only [extractSingleField, hs] at hv hr ⊢
        simp [pyOr, pyFalsy, hv, hr, findCitations]
  · intro finditer text n t
    exact goHeur_value_none_raw finditer text (getPatternsForField n t)

/-- C2 witness: a heuristic run with no matching pattern produces the null
record with zero confidence and no citations. -/
theorem spec_c2_witness :
    (extractSingleField (heuristicStrat (fun _ _ => []) "doc")
        [⟨some "alpha", none, none⟩] "F" "TEXT" "").confidence_score = 0
    ∧ (extractSingleField (heuristicStrat (fun _ _ => []) "doc")
        [⟨some "alpha", none, none⟩] "F" "TEXT" "").citations = [] := by
  have hv : (extractSingleField (heuristicStrat (fun _ _ => []) "doc")
      [⟨some "alpha", none, none⟩] "F" "TEXT" "").extracted_value = none := by decide
  have hr : (extractSingleField (heuristicStrat (fun _ _ => []) "doc")
      [⟨some "alpha", none, none⟩] "F" "TEXT" "").raw_text = none := by decide
  have h := spec_c2_amended.1 (heuristicStrat (fun _ _ => []) "doc")
      [⟨some "alpha", none, none⟩] "F" "TEXT" ""
  exact ⟨h.1 hv, h.2 hv hr⟩

lemma chunkSim_alpha : chunkSim "alpha" "alpha" = 1 := by
  have hc : containsSub (pyLower "alpha").data (pyLower "alpha").data = true := by decide
  have hu : (tokenSet "alpha" ∪ tokenSet "alpha").card = 1 := by decide
  have hi : (tokenSet "alpha" ∩ tokenSet "alpha").card = 1 := by decide
  simp only [chunkSim, jaccard, hc, hu, hi, if_true]
  norm_num

/-- Evaluation of the citation ranker on one perfectly matching chunk, for
any key-presence state of its page and section entries. -/
lemma findCitations_alpha (pg : Option (Option Int)) (st : Option (Option String)) :
    findCitations (some "alpha") [⟨some "alpha", pg, st⟩] 3 =
      [⟨"alpha", pyGetOpt pg 1, pyGetOpt st "Main", 1, "0"⟩] := by
  have hq : pyFalsy (some "alpha") = false := by decide
  have hlt : (0 : ℚ) < 1 := by norm_num
  have hts : toString (0 : Nat) = "0" := by decide
  simp only [findCitations, hq, Bool.false_eq_true, if_false, List.enum, List.enumFrom,
    List.map_cons, List.map_nil, Option.getD_some, sortDesc, insertDesc, List.take,
    List.filter, chunkSim_alpha]
  simp [hlt, hts]

/-- C2 counterexample: with the LLM strategy returning
`{value: null, raw_text: "alpha", confidence: 0.9}` on a document whose one
chunk is "alpha", the produced record has a null `extracted_value` but a
non-empty citations list - refuting the claim that a null value forces
`citations = []`. -/
theorem spec_c2_cex :
    (extractSingleField (llmStrat (fun _ _ _ => some ⟨none, some "alpha", 0.9⟩))
        [⟨some "alpha", none, none⟩] "F" "TEXT" "").extracted_value = none
    ∧ (extractSingleField (llmStrat (fun _ _ _ => some ⟨none, some "alpha", 0.9⟩))
        [⟨some "alpha", none, none⟩] "F" "TEXT" "").citations ≠ [] := by
  have h : pyOr (some "alpha") none = some "alpha" := by decide
  constructor
  · simp [extractSingleField, llmStrat, extractWithLlm]
  · simp only [extractSingleField, llmStrat, extractWithLlm, h, findCitations_alpha]
    simp

lemma validateExtraction_nonneg (e n : Option String) (t : String) :
    0 ≤ validateExtraction e n t := by
  simp only [validateExtraction]
  split_ifs <;> norm_num

lemma validateExtraction_le_one (e n : Option String) (t : String) :
    validateExtraction e n t ≤ 1 := by
  simp only [validateExtraction]
  split_ifs <;> norm_num

lemma getPatterns_boost_nonneg {n t : String} {p : String × ℚ}
    (hp : p ∈ getPatternsForField n t) : 0 ≤ p.2 := by
  unfold getPatternsForField at hp
  rcases List.mem_append.mp hp with h | h
  · split_ifs at h <;> fin_cases h <;> norm_num
  · rw [List.mem_singleton] at h
    subst h
    norm_num

lemma goHeur_conf_nonneg (finditer : String → String → List PyMatch) (text : String) :
    ∀ ps, (∀ p ∈ ps, 0 ≤ p.2) → 0 ≤ (goHeur finditer text ps).confidence := by
  intro ps
  induction ps with
  | nil => intro _; norm_num [goHeur]
  | cons p rest ih =>
    intro hb
    obtain ⟨pat, boost⟩ := p
    cases h : finditer pat text with
    | nil =>
      simp only [goHeur, h]
      exact ih (fun q hq => hb q (List.mem_cons_of_mem _ hq))
    | cons m ms =>
      simp only [goHeur, h]
      have hboost : (0 : ℚ) ≤ boost := hb (pat, boost) (List.mem_cons_self _ _)
      exact le_min (by norm_num) (by linarith)

/-- C3 (amended).  Every relevance score of a returned citation lies in
`[0, 1]`; every record confidence is at most `1`; record confidence is
nonnegative whenever the strategy result's confidence is nonnegative - which
the heuristic strategy always guarantees.  (The LLM path only caps the
backend confidence from above, so a negative backend confidence propagates -
see the counterexample.) -/
theorem spec_c3_amended :
    (∀ q chunks k, ∀ c ∈ findCitations q chunks k,
      0 ≤ c.relevance_score ∧ c.relevance_score ≤ 1)
    ∧ (∀ strat chunks n t d,
        (extractSingleField strat chunks n t d).confidence_score ≤ 1)
    ∧ (∀ strat chunks n t d,
        (∀ r, strat n t d = Except.ok r → 0 ≤ r.confidence) →
        0 ≤ (extractSingleField strat chunks n t d).confidence_score)
    ∧ (∀ finditer text n t,
        0 ≤ (extractWithHeuristics finditer text n t).confidence
        ∧ (extractWithHeuristics finditer text n t).confidence ≤ 1) := by
  refine ⟨?_, ?_, ?_, ?_⟩
  · intro q chunks k c hc
    obtain ⟨ch, _, hrel, _, _, hpos⟩ := findCitations_mem hc
    constructor
    · exact le_of_lt hpos
    · rw [hrel]
      exact chunkSim_le_one _ _
  · intro strat chunks n t d
    cases hs : strat n t d with
    | error e => simp [extractSingleField, hs, errorRecord]
    | ok r =>
      simp only [extractSingleField, hs]
      exact min_le_left _ _
  · intro strat chunks n t d h
    cases hs : strat n t d with
    | error e => simp [extractSingleField, hs, errorRecord]
    | ok r =>
      simp only [extractSingleField, hs]
      exact le_min (by norm_num)
        (mul_nonneg (h r hs) (validateExtraction_nonneg _ _ _))
  · intro finditer text n t
    constructor
    · exact goHeur_conf_nonneg finditer text _
        (fun p hp => getPatterns_boost_nonneg hp)
    · unfold extractWithHeuristics
      generalize getPatternsForField n t = ps
      induction ps with
      | nil => norm_num [goHeur]
      | cons p rest ih =>
        obtain ⟨pat, boost⟩ := p
        cases h : finditer pat text with
        | nil => simp only [goHeur, h]; exact ih
        | cons m ms => simp only [goHeur, h]; exact min_le_left _ _

/-- C3 witness: the nonnegativity part applied to the heuristic strategy on
an all-miss oracle. -/
theorem spec_c3_witness :
    0 ≤ (extractSingleField (heuristicStrat (fun _ _ => []) "doc") []
        "F" "TEXT" "").confidence_score :=
  spec_c3_amended.2.2.1 (heuristicStrat (fun _ _ => []) "doc") [] "F" "TEXT" ""
    (fun r hr => by
      cases hr
      exact (spec_c3_amended.2.2.2 (fun _ _ => []) "doc" "F" "TEXT").1)

/-- C3 counterexample: a backend reply `{value: "x", confidence: -1}` yields
a record whose `confidence_score` is `-0.8`, outside `[0, 1]` - the code
caps confidence from above only. -/
theorem spec_c3_cex :
    (extractSingleField (llmStrat (fun _ _ _ => some ⟨some "x", none, -1⟩)) []
        "F" "TEXT" "").confidence_score < 0 := by
  have hn : normalizeValue (some "x") "TEXT" = some "x" := by decide
  have hf : pyFalsy (some "x") = false := by decide
  simp only [extractSingleField, llmStrat, extractWithLlm, hn]
  have hv : validateExtraction (some "x") (some "x") "TEXT" = 0.8 := by
    simp [validateExtraction, hf]
  rw [hv]
  norm_num [min_def]

/-- C10 (amended).  Every returned citation's `page_number` and
`section_title` come from the source chunk via Python `.get` with defaults
`1` and `"Main"`: the default fires exactly when the key is absent from the
chunk dict, while a key present with an explicit null passes the null
through to the citation (so `page_number` is not always non-null - see the
counterexample; the orchestrator builds chunks with the `page_number` key
always present, possibly null, and pre-defaults `section`). -/
theorem spec_c10_amended (q : Option String) (chunks : List PyChunk) (k : Nat) :
    ∀ c ∈ findCitations q chunks k,
      ∃ ch ∈ chunks,
        c.page_number = pyGetOpt ch.page 1
        ∧ c.section_title = pyGetOpt ch.sect "Main"
        ∧ (ch.page = none → c.page_number = some 1)
        ∧ (ch.sect = none → c.section_title = some "Main")
        ∧ (∀ pv, ch.page = some pv → c.page_number = pv)
        ∧ (∀ sv, ch.sect = some sv → c.section_title = sv) := by
  intro c hc
  obtain ⟨ch, hch, _, hpage, hsect, _⟩ := findCitations_mem hc
  refine ⟨ch, hch, hpage, hsect, ?_, ?_, ?_, ?_⟩
  · intro h
    rw [hpage, h]
    rfl
  · intro h
    rw [hsect, h]
    rfl
  · intro pv h
    rw [hpage, h]
    rfl
  · intro sv h
    rw [hsect, h]
    rfl

/-- C10 witness: a chunk dict with both keys absent yields the defaulted
citation `page_number = 1`, `section_title = "Main"`. -/
theorem spec_c10_witness :
    (⟨"alpha", some 1, some "Main", 1, "0"⟩ : Citation).page_number = some 1
    ∧ (⟨"alpha", some 1, some "Main", 1, "0"⟩ : Citation).section_title = some "Main" := by
  have hc : (⟨"alpha", some 1, some "Main", 1, "0"⟩ : Citation) ∈
      findCitations (some "alpha") [⟨some "alpha", none, none⟩] 3 := by
    rw [findCitations_alpha]
    exact List.mem_singleton.mpr rfl
  obtain ⟨ch, hch, _, _, hp, hs, _, _⟩ :=
    spec_c10_amended (some "alpha") [⟨some "alpha", none, none⟩] 3 _ hc
  rw [List.mem_singleton] at hch
  subst hch
  exact ⟨hp rfl, hs rfl⟩

/-- C10 counterexample: a chunk whose `page_number` key is present with an
explicit null produces a citation with a null `page_number` (Python `.get`
defaults only on a missing key), refuting the claim that every citation has
a non-null `page_number`. -/
theorem spec_c10_cex :
    (findCitations (some "alpha") [⟨some "alpha", some none, some (some "S")⟩] 3).map
      Citation.page_number = [none] := by
  rw [findCitations_alpha]
  rfl

lemma goHeur_all_none (finditer : String → String → List PyMatch) (text : String) :
    ∀ ps, (∀ p ∈ ps, finditer p.1 text = []) →
      goHeur finditer text ps = ⟨none, none, 0⟩ := by
  intro ps
  induction ps with
  | nil => intro _; rfl
  | cons p rest ih =>
    intro h
    obtain ⟨pat, boost⟩ := p
    have hp : finditer pat text = [] := h (pat, boost) (List.mem_cons_self _ _)
    simp only [goHeur, hp]
    exact ih (fun q hq => h q (List.mem_cons_of_mem _ hq))

lemma goHeur_first_match (finditer : String → String → List PyMatch) (text : String) :
    ∀ (pre : List (String × ℚ)) (p : String × ℚ) (post : List (String × ℚ))
      (m : PyMatch) (ms : List PyMatch),
      (∀ q ∈ pre, finditer q.1 text = []) → finditer p.1 text = m :: ms →
      goHeur finditer text (pre ++ p :: post) =
        ⟨some (pyStrip (extractedOf text m)), some (pyStrip (windowRaw text m)),
         min 1 (0.6 + p.2)⟩ := by
  intro pre
  induction pre with
  | nil =>
    intro p post m ms _ hm
    obtain ⟨pat, boost⟩ := p
    simp only [List.nil_append, goHeur, hm]
  | cons q rest ih =>
    intro p post m ms hpre hm
    obtain ⟨qpat, qboost⟩ := q
    have hq : finditer qpat text = [] := hpre (qpat, qboost) (List.mem_cons_self _ _)
    simp only [List.cons_append, goHeur, hq]
    exact ih p post m ms (fun r hr => hpre r (List.mem_cons_of_mem _ hr)) hm

/-- C1 (amended).  The heuristic strategy consults the field's pattern list
in order; on the first pattern with any match it uses that pattern's first
match only, returning the capture group (or the whole-match slice when the
pattern has no group) *stripped of surrounding whitespace* as the value, the
±100-character window around the match, likewise stripped, as `raw_text`,
and confidence `min(1.0, 0.6 + boost)`; later patterns and later matches
are never consulted (the result does not depend on `post` or `ms`).  If no
pattern matches at all the result is
`{value: null, raw_text: null, confidence: 0}`.  (The claim's unstripped
reading of value and `raw_text` fails - see the counterexample.) -/
theorem spec_c1_amended (finditer : String → String → List PyMatch)
    (text name ftype : String) :
    ((∀ p ∈ getPatternsForField name ftype, finditer p.1 text = []) →
      extractWithHeuristics finditer text name ftype = ⟨none, none, 0⟩)
    ∧ (∀ (pre : List (String × ℚ)) (p : String × ℚ) (post : List (String × ℚ))
        (m : PyMatch) (ms : List PyMatch),
        getPatternsForField name ftype = pre ++ p :: post →
        (∀ q ∈ pre, finditer q.1 text = []) →
        finditer p.1 text = m :: ms →
        extractWithHeuristics finditer text name ftype =
          ⟨some (pyStrip (extractedOf text m)), some (pyStrip (windowRaw text m)),
           min 1 (0.6 + p.2)⟩) := by
  constructor
  · intro h
    exact goHeur_all_none finditer text _ h
  · intro pre p post m ms hps hpre hm
    rw [extractWithHeuristics, hps]
    exact goHeur_first_match finditer text pre p post m ms hpre hm

/-- C1 witness: field "Due Date" of type DATE on "Due 01/15/2024 now." with
the recorded oracle; the first date pattern wins with boost 0.3, and the
±100-character window is the whole (short) document. -/
theorem spec_c1_witness :
    extractWithHeuristics oracleDate "Due 01/15/2024 now." "Due Date" "DATE" =
      ⟨some "01/15/2024", some "Due 01/15/2024 now.", min 1 (0.6 + 0.3)⟩ := by
  have h := (spec_c1_amended oracleDate "Due 01/15/2024 now." "Due Date" "DATE").2
    [] ("(\\d\x7b1,2\x7d/\\d\x7b1,2\x7d/\\d\x7b4\x7d)", 0.3)
    [("(\\d\x7b4\x7d-\\d\x7b2\x7d-\\d\x7b2\x7d)", 0.3),
     ("(January|February|March|April|May|June|July|August|September|October|November|December)\\s+\\d\x7b1,2\x7d,?\\s+\\d\x7b4\x7d", 0.4),
     (genericPattern "Due Date", 0.2)]
    ⟨4, 14, some "01/15/2024"⟩ [] rfl (by simp) (by decide)
  rw [h]
  simp only [StratResult.mk.injEq]
  exact ⟨by decide, by decide, trivial⟩

/-- C1 counterexample: for field "Field" on "Field: foo and" the only
pattern consulted is the generic one, whose first match has capture group
"foo " (with a trailing space, which the lazy group must absorb before the
literal alternative "and" can close the match); the strategy returns the
stripped "foo" as the value, so the value is *not* the capture group as the
claim states. -/
theorem spec_c1_cex :
    oracleGeneric (genericPattern "Field") "Field: foo and" = [⟨0, 14, some "foo "⟩]
    ∧ (extractWithHeuristics oracleGeneric "Field: foo and" "Field" "TEXT").value =
        some "foo"
    ∧ some "foo" ≠ some "foo " := by
  refine ⟨by decide, by decide, by decide⟩

lemma suffLen_le_left (a b : List Char) (alo blo : Nat) :
    ∀ i j, alo ≤ i → suffLen a b alo blo i j ≤ i + 1 - alo := by
  intro i
  induction i with
  | zero =>
    intro j h
    have h0 : alo = 0 := Nat.le_zero.mp h
    subst h0
    simp only [suffLen]
    split_ifs <;> omega
  | succ i ih =>
    intro j h
    simp only [suffLen]
    split_ifs with h1 h2
    · have hb := ih (j - 1) (by omega)
      omega
    · omega
    · omega

lemma suffLen_le_right (a b : List Char) (alo blo : Nat) :
    ∀ i j, blo ≤ j → suffLen a b alo blo i j ≤ j + 1 - blo := by
  intro i
  induction i with
  | zero =>
    intro j h
    simp only [suffLen]
    split_ifs <;> omega
  | succ i ih =>
    intro j h
    simp only [suffLen]
    split_ifs with h1 h2
    · have hb := ih (j - 1) (by omega)
      omega
    · omega
    · omega

lemma mem_lexPairs {alo ahi blo bhi : Nat} {pr : Nat × Nat}
    (h : pr ∈ lexPairs alo ahi blo bhi) :
    alo ≤ pr.1 ∧ pr.1 < ahi ∧ blo ≤ pr.2 ∧ pr.2 < bhi := by
  obtain ⟨i, j⟩ := pr
  simp only [lexPairs, List.mem_flatMap, List.mem_map, List.mem_range'_1,
    Prod.mk.injEq] at h
  obtain ⟨x, hx, y, hy, hxy⟩ := h
  obtain ⟨rfl, rfl⟩ := hxy
  exact ⟨by omega, by omega, by omega, by omega⟩

lemma flmFold_good (a b : List Char) (alo ahi blo bhi : Nat) :
    ∀ (ps : List (Nat × Nat)) (bi bj bk : Nat),
      (∀ pr ∈ ps, alo ≤ pr.1 ∧ pr.1 < ahi ∧ blo ≤ pr.2 ∧ pr.2 < bhi) →
      alo ≤ bi → bi + bk ≤ ahi → blo ≤ bj → bj + bk ≤ bhi →
      alo ≤ (flmFold a b alo blo ps (bi, bj, bk)).1
      ∧ (flmFold a b alo blo ps (bi, bj, bk)).1 +
          (flmFold a b alo blo ps (bi, bj, bk)).2.2 ≤ ahi
      ∧ blo ≤ (flmFold a b alo blo ps (bi, bj, bk)).2.1
      ∧ (flmFold a b alo blo ps (bi, bj, bk)).2.1 +
          (flmFold a b alo blo ps (bi, bj, bk)).2.2 ≤ bhi := by
  intro ps
  induction ps with
  | nil =>
    intro bi bj bk _ g1 g2 g3 g4
    exact ⟨g1, g2, g3, g4⟩
  | cons pr rest ih =>
    intro bi bj bk hps g1 g2 g3 g4
    obtain ⟨i, j⟩ := pr
    have hij := hps (i, j) (List.mem_cons_self _ _)
    have htail := fun q hq => hps q (List.mem_cons_of_mem _ hq)
    have hs1 := suffLen_le_left a b alo blo i j hij.1
    have hs2 := suffLen_le_right a b alo blo i j hij.2.2.1
    simp only [flmFold]
    split_ifs with hlt
    · exact ih (i + 1 - suffLen a b alo blo i j) (j + 1 - suffLen a b alo blo i j)
        (suffLen a b alo blo i j) htail (by omega) (by omega) (by omega) (by omega)
    · exact ih bi bj bk htail g1 g2 g3 g4

lemma findLongestMatch_good (a b : List Char) (alo ahi blo bhi : Nat)
    (h1 : alo ≤ ahi) (h2 : blo ≤ bhi) :
    alo ≤ (findLongestMatch a b alo ahi blo bhi).1
    ∧ (findLongestMatch a b alo ahi blo bhi).1 +
        (findLongestMatch a b alo ahi blo bhi).2.2 ≤ ahi
    ∧ blo ≤ (findLongestMatch a b alo ahi blo bhi).2.1
    ∧ (findLongestMatch a b alo ahi blo bhi).2.1 +
        (findLongestMatch a b alo ahi blo bhi).2.2 ≤ bhi := by
  unfold findLongestMatch
  exact flmFold_good a b alo ahi blo bhi _ alo blo 0
    (fun pr hpr => mem_lexPairs hpr) (le_refl _) (by omega) (le_refl _) (by omega)

lemma matchTotal_le_left (a b : List Char) :
    ∀ fuel alo ahi blo bhi, alo ≤ ahi → blo ≤ bhi →
      matchTotal a b fuel alo ahi blo bhi ≤ ahi - alo := by
  intro fuel
  induction fuel with
  | zero => intro alo ahi blo bhi _ _; simp [matchTotal]
  | succ f ih =>
    intro alo ahi blo bhi h1 h2
    have hg := findLongestMatch_good a b alo ahi blo bhi h1 h2
    rcases hr : findLongestMatch a b alo ahi blo bhi with ⟨bi, bj, k⟩
    rw [hr] at hg
    obtain ⟨g1, g2, g3, g4⟩ := hg
    dsimp only at g1 g2 g3 g4
    simp only [matchTotal, hr]
    split_ifs with hk
    · omega
    · have hl := ih alo bi blo bj (by omega) (by omega)
      have hrt := ih (bi + k) ahi (bj + k) bhi (by omega) (by omega)
      omega

lemma matchTotal_le_right (a b : List Char) :
    ∀ fuel alo ahi blo bhi, alo ≤ ahi → blo ≤ bhi →
      matchTotal a b fuel alo ahi blo bhi ≤ bhi - blo := by
  intro fuel
  induction fuel with
  | zero => intro alo ahi blo bhi _ _; simp [matchTotal]
  | succ f ih =>
    intro alo ahi blo bhi h1 h2
    have hg := findLongestMatch_good a b alo ahi blo bhi h1 h2
    rcases hr : findLongestMatch a b alo ahi blo bhi with ⟨bi, bj, k⟩
    rw [hr] at hg
    obtain ⟨g1, g2, g3, g4⟩ := hg
    dsimp only at g1 g2 g3 g4
    simp only [matchTotal, hr]
    split_ifs with hk
    · omega
    · have hl := ih alo bi blo bj (by omega) (by omega)
      have hrt := ih (bi + k) ahi (bj + k) bhi (by omega) (by omega)
      omega

lemma smScore_nonneg (a b : List Char) : 0 ≤ smScore a b := by
  simp only [smScore]
  split_ifs with h
  · norm_num
  · positivity

lemma smScore_le_one (a b : List Char) : smScore a b ≤ 1 := by
  simp only [smScore]
  split_ifs with h
  · norm_num
  · have hla := matchTotal_le_left a b (a.length + 1) 0 a.length 0 b.length
      (by omega) (by omega)
    have hlb := matchTotal_le_right a b (a.length + 1) 0 a.length 0 b.length
      (by omega) (by omega)
    rw [div_le_one (by exact_mod_cast Nat.pos_of_ne_zero h)]
    have h2 : 2 * matchTotal a b (a.length + 1) 0 a.length 0 b.length ≤
        a.length + b.length := by omega
    exact_mod_cast h2

/-- C7 (amended).  The similarity score always lies in `[0, 1]`.  (The
claimed symmetry fails: the underlying `SequenceMatcher` ratio depends on
argument order - see the counterexample.) -/
theorem spec_c7_amended (a b : Option String) :
    0 ≤ matchScore a b ∧ matchScore a b ≤ 1 := by
  constructor
  · simp only [matchScore]
    split_ifs <;> first | exact smScore_nonneg _ _ | norm_num
  · simp only [matchScore]
    split_ifs <;> first | exact smScore_le_one _ _ | norm_num

lemma matchScore_of_ne {x y : String} (hx : x ≠ "") (hy : y ≠ "")
    (hne : pyStrip (pyLower x) ≠ pyStrip (pyLower y)) :
    matchScore (some x) (some y) =
      smScore (pyStrip (pyLower x)).data (pyStrip (pyLower y)).data := by
  simp [matchScore, pyFalsy, hx, hy, hne]

lemma smScore_eval {a b : List Char} (m la lb : Nat)
    (hm : matchTotal a b (la + 1) 0 la 0 lb = m)
    (ha : a.length = la) (hb : b.length = lb) (ht : la + lb ≠ 0) :
    smScore a b = 2 * (m : ℚ) / ((la + lb : Nat) : ℚ) := by
  simp [smScore, ha, hb, ht, hm]

/-- C7 counterexample: the score is not symmetric.  On the pair
`("ppmqq", "qqvppwm")` the matcher first takes the common block "pp"; in
one direction the extra "m" match then falls inside the remaining window
(total 3, ratio 1/2), in the other direction it falls outside (total 2,
ratio 1/3). -/
theorem spec_c7_cex :
    matchScore (some "ppmqq") (some "qqvppwm") ≠
      matchScore (some "qqvppwm") (some "ppmqq") := by
  have h1 : matchScore (some "ppmqq") (some "qqvppwm") =
      2 * ((3 : Nat) : ℚ) / ((5 + 7 : Nat) : ℚ) := by
    rw [matchScore_of_ne (by decide) (by decide) (by decide)]
    exact smScore_eval 3 5 7 (by decide) (by decide) (by decide) (by decide)
  have h2 : matchScore (some "qqvppwm") (some "ppmqq") =
      2 * ((2 : Nat) : ℚ) / ((7 + 5 : Nat) : ℚ) := by
    rw [matchScore_of_ne (by decide) (by decide) (by decide)]
    exact smScore_eval 2 7 5 (by decide) (by decide) (by decide) (by decide)
  rw [h1, h2]
  norm_num

lemma upsert_of_not_mem {d : List (String × Cell)} {k : String} {v : Cell}
    (h : ∀ p ∈ d, p.1 ≠ k) : upsert d k v = d ++ [(k, v)] := by
  have hc : d.any (fun p => p.1 = k) = false := by
    rw [List.any_eq_false]
    intro p hp
    simp [h p hp]
  simp [upsert, hc]

lemma mem_upsert {d : List (String × Cell)} {k : String} {v : Cell}
    {p : String × Cell} (h : p ∈ upsert d k v) : p ∈ d ∨ p = (k, v) := by
  unfold upsert at h
  split_ifs at h with hc
  · obtain ⟨q, hq, hqe⟩ := List.mem_map.mp h
    by_cases hqk : q.1 = k
    · right
      rw [← hqe]
      simp [hqk]
    · left
      rw [← hqe]
      simpa [hqk] using hq
  · rcases List.mem_append.mp h with h | h
    · exact Or.inl h
    · exact Or.inr (List.mem_singleton.mp h)

lemma foldl_upsert_eq_append (f : String → Cell) :
    ∀ (docs : List PyDoc) (acc : List (String × Cell)),
      (docs.map PyDoc.id).Nodup →
      (∀ doc ∈ docs, ∀ p ∈ acc, p.1 ≠ doc.id) →
      docs.foldl (fun d doc => upsert d doc.id (f doc.id)) acc
        = acc ++ docs.map (fun doc => (doc.id, f doc.id)) := by
  intro docs
  induction docs with
  | nil => intro acc _ _; simp
  | cons d ds ih =>
    intro acc hnd hacc
    have hfresh : ∀ p ∈ acc, p.1 ≠ d.id :=
      fun p hp => hacc d (List.mem_cons_self _ _) p hp
    simp only [List.foldl_cons]
    rw [upsert_of_not_mem hfresh]
    rw [ih (acc ++ [(d.id, f d.id)]) ?_ ?_]
    · simp
    · simp only [List.map_cons, List.nodup_cons] at hnd
      exact hnd.2
    · intro doc hdoc p hp
      rcases List.mem_append.mp hp with hp | hp
      · exact hacc doc (List.mem_cons_of_mem _ hdoc) p hp
      · rw [List.mem_singleton] at hp
        subst hp
      -- p = (d.id, _): the head id differs from every tail id by Nodup
        simp only [List.map_cons, List.nodup_cons] at hnd
        dsimp only
        intro hcontra
        exact hnd.1 (hcontra ▸ List.mem_map_of_mem PyDoc.id hdoc)

lemma dictComp_eq_map (f : String → Cell) (docs : List PyDoc)
    (hnd : (docs.map PyDoc.id).Nodup) :
    dictComp docs f = docs.map (fun doc => (doc.id, f doc.id)) := by
  unfold dictComp
  rw [foldl_upsert_eq_append f docs [] hnd (by simp)]
  simp

lemma lookup_map_of_nodup (f : String → Cell) :
    ∀ (docs : List PyDoc) (d : PyDoc), (docs.map PyDoc.id).Nodup → d ∈ docs →
      (docs.map (fun doc => (doc.id, f doc.id))).lookup d.id = some (f d.id) := by
  intro docs
  induction docs with
  | nil => intro d _ h; cases h
  | cons x xs ih =>
    intro d hnd hd
    simp only [List.map_cons, List.lookup]
    by_cases he : d.id = x.id
    · rw [he]
      simp
    · have hbeq : (d.id == x.id) = false := by
        simp [he]
      rw [hbeq]
      have hdx : d ∈ xs := by
        rcases List.mem_cons.mp hd with rfl | hdx
        · exact absurd rfl he
        · exact hdx
      simp only [List.map_cons, List.nodup_cons] at hnd
      exact ih d hnd.2 hdx

lemma mem_of_lookup {l : List (String × Cell)} {k : String} {v : Cell}
    (h : l.lookup k = some v) : (k, v) ∈ l := by
  induction l with
  | nil => cases h
  | cons p rest ih =>
    obtain ⟨pk, pv⟩ := p
    simp only [List.lookup] at h
    by_cases he : k = pk
    · subst he
      simp only [beq_self_eq_true] at h
      rw [Option.some.injEq] at h
      subst h
      exact List.mem_cons_self _ _
    · have hbeq : (k == pk) = false := beq_eq_false_iff_ne.mpr he
      simp only [hbeq] at h
      exact List.mem_cons_of_mem _ (ih h)

lemma dictComp_lookup (f : String → Cell) (docs : List PyDoc) (d : PyDoc)
    (hnd : (docs.map PyDoc.id).Nodup) (hd : d ∈ docs) :
    (dictComp docs f).lookup d.id = some (f d.id) := by
  rw [dictComp_eq_map f docs hnd]
  exact lookup_map_of_nodup f docs d hnd hd

lemma addExtraction_inv (P : String → String → Prop)
    (gs : List FieldGroup) (e : PyExtraction)
    (hgs : ∀ g ∈ gs, ∀ p ∈ g.results, P g.field_name p.1)
    (he : P e.field_name e.document_id) :
    ∀ g ∈ addExtraction gs e, ∀ p ∈ g.results, P g.field_name p.1 := by
  intro g hg p hp
  unfold addExtraction at hg
  split_ifs at hg with hc
  · obtain ⟨g0, hg0, hge⟩ := List.mem_map.mp hg
    by_cases hfn : g0.field_name = e.field_name
    · rw [if_pos hfn] at hge
      subst hge
      rcases mem_upsert hp with hp0 | hp0
      · exact hgs g0 hg0 p hp0
      · subst hp0
        simpa [hfn] using he
    · rw [if_neg hfn] at hge
      subst hge
      exact hgs g0 hg0 p hp
  · rcases List.mem_append.mp hg with hg0 | hg0
    · exact hgs g hg0 p hp
    · rw [List.mem_singleton] at hg0
      subst hg0
      rw [List.mem_singleton] at hp
      subst hp
      exact he

lemma foldl_addExtraction_inv (P : String → String → Prop) :
    ∀ (es : List PyExtraction) (acc : List FieldGroup),
      (∀ g ∈ acc, ∀ p ∈ g.results, P g.field_name p.1) →
      (∀ e ∈ es, P e.field_name e.document_id) →
      ∀ g ∈ es.foldl addExtraction acc, ∀ p ∈ g.results, P g.field_name p.1 := by
  intro es
  induction es with
  | nil => intro acc hacc _; exact hacc
  | cons e rest ih =>
    intro acc hacc hes
    simp only [List.foldl_cons]
    exact ih (addExtraction acc e)
      (addExtraction_inv P acc e hacc (hes e (List.mem_cons_self _ _)))
      (fun x hx => hes x (List.mem_cons_of_mem _ hx))

lemma fieldGroups_results_source {es : List PyExtraction} :
    ∀ g ∈ fieldGroups es, ∀ p ∈ g.results,
      ∃ e ∈ es, e.field_name = g.field_name ∧ e.document_id = p.1 :=
  foldl_addExtraction_inv
    (fun fn did => ∃ e ∈ es, e.field_name = fn ∧ e.document_id = did)
    es [] (by simp) (fun e he => ⟨e, he, rfl, rfl⟩)

/-- C9.  Comparison-row construction: empty documents or empty extractions
yield an empty row list; with document ids free of duplicates, every row
carries exactly one cell per supplied document (keys in document order), and
a document with no matching (document, field) record gets the sentinel cell
`{extracted_value: "N/A", confidence_score: 0.0}`. -/
theorem spec_c9 :
    (∀ es, generateComparisonRows [] es = [])
    ∧ (∀ docs, generateComparisonRows docs [] = [])
    ∧ (∀ (docs : List PyDoc) (es : List PyExtraction),
        (docs.map PyDoc.id).Nodup →
        ∀ row ∈ generateComparisonRows docs es,
          row.document_results.map Prod.fst = docs.map PyDoc.id
          ∧ ∀ doc ∈ docs,
              (¬ ∃ e ∈ es, e.field_name = row.field_name ∧ e.document_id = doc.id) →
              row.document_results.lookup doc.id = some (Cell.sentinel "N/A" 0)) := by
  refine ⟨fun es => by simp [generateComparisonRows],
          fun docs => by simp [generateComparisonRows], ?_⟩
  intro docs es hnd row hrow
  unfold generateComparisonRows at hrow
  split_ifs at hrow with hemp
  · cases hrow
  · obtain ⟨g, hg, hge⟩ := List.mem_map.mp hrow
    subst hge
    have hdc := dictComp_eq_map (fun did =>
        match g.results.lookup did with
        | some c => c
        | none => Cell.sentinel "N/A" 0) docs hnd
    constructor
    · simp only [rowOf, hdc, List.map_map]
      rfl
    · intro doc hdoc hno
      have hlu := dictComp_lookup (fun did =>
          match g.results.lookup did with
          | some c => c
          | none => Cell.sentinel "N/A" 0) docs doc hnd hdoc
      simp only [rowOf]
      rw [hlu]
      cases hlk : g.results.lookup doc.id with
      | none => simp [hlk]
      | some c =>
        exfalso
        have hmem := mem_of_lookup hlk
        obtain ⟨e, he, hfn, hdid⟩ := fieldGroups_results_source g hg (doc.id, c) hmem
        exact hno ⟨e, he, hfn, hdid⟩

/-- C9 witness: documents `[D1, D2]` with one extraction for `(D1, Term)`;
the row's `D2` cell is the `"N/A"` / `0.0` sentinel. -/
theorem spec_c9_witness :
    (rowOf [⟨"D1"⟩, ⟨"D2"⟩]
        ⟨"Term", "TEXT", [("D1", cellOf extSample)]⟩).document_results.lookup "D2"
      = some (Cell.sentinel "N/A" 0) := by
  have hrow : rowOf [⟨"D1"⟩, ⟨"D2"⟩] ⟨"Term", "TEXT", [("D1", cellOf extSample)]⟩
      ∈ generateComparisonRows [⟨"D1"⟩, ⟨"D2"⟩] [extSample] := by
    rw [show generateComparisonRows [⟨"D1"⟩, ⟨"D2"⟩] [extSample]
        = [rowOf [⟨"D1"⟩, ⟨"D2"⟩] ⟨"Term", "TEXT", [("D1", cellOf extSample)]⟩] from rfl]
    exact List.mem_singleton.mpr rfl
  have h := (spec_c9.2.2 [⟨"D1"⟩, ⟨"D2"⟩] [extSample] (by decide) _ hrow).2
    ⟨"D2"⟩ (by simp)
  apply h
  rintro ⟨e, he, h1, h2⟩
  rw [List.mem_singleton] at he
  subst he
  exact absurd h2 (by decide)
